import Mathlib

/-!
# Verification of the YahyaBadge OCR field-extraction pipeline

A shallow embedding of `src/utils/ocrProcessor.ts`: the document classifier,
the MRZ (machine-readable zone) decoder, the per-field extractors, the Arabic
transliteration table and the email synthesizers, together with the
text-processing core of `extractVisaData` that assembles the final record.

Strings are modelled as Lean `String`s processed through their underlying
`List Char`; every JavaScript regular expression used by the source is
compiled by hand into an executable scanner with the same leftmost-match and
greedy/lazy backtracking behaviour on the character classes involved.
JavaScript `String.prototype.substring` clamping, `parseInt` (including its
`NaN` result turning into the literal characters `NaN` under template
interpolation), empty-string falsiness of `||`, and `split` semantics are
reproduced explicitly.  The browser-only parts (Tesseract OCR, PDF
rasterization, canvas photo cropping) are collaborators outside the text
model: the core takes the recognized text, and the photo data-URI is passed
through as a parameter.
-/

namespace YahyaBadge

/-! ## Character classes (JavaScript regex classes) -/

/-- JavaScript `\s`: whitespace class used by `trim`, `\s` in regexes and
`split(/\s+/)`. -/
def jsSpace (c : Char) : Bool :=
  c.toNat = 32 || c.toNat = 9 || c.toNat = 10 || c.toNat = 13 ||
  c.toNat = 11 || c.toNat = 12 || c.toNat = 160 || c.toNat = 5760 ||
  (8192 <= c.toNat && c.toNat <= 8202) || c.toNat = 8232 || c.toNat = 8233 ||
  c.toNat = 8239 || c.toNat = 8287 || c.toNat = 12288 || c.toNat = 65279

/-- Embeds `[A-Z]`. -/
def isAsciiUpper (c : Char) : Bool := 65 <= c.toNat && c.toNat <= 90

/-- Embeds `[a-z]`. -/
def isAsciiLower (c : Char) : Bool := 97 <= c.toNat && c.toNat <= 122

/-- Embeds `[0-9]`. -/
def isAsciiDigit (c : Char) : Bool := 48 <= c.toNat && c.toNat <= 57

def isAsciiLetter (c : Char) : Bool := isAsciiUpper c || isAsciiLower c

/-- JavaScript `\w`: `[A-Za-z0-9_]`, the class that defines `\b` word
boundaries. -/
def isWordChar (c : Char) : Bool := isAsciiLetter c || isAsciiDigit c || c = '_'

/-- The Arabic block (U+0600 to U+06FF) used throughout the source. -/
def isArabicChar (c : Char) : Bool := 1536 <= c.toNat && c.toNat <= 1791

/-- ASCII lowercasing; the `i` regex flag and `toLowerCase` on the character
repertoire the source handles (ASCII plus caseless Arabic). -/
def lowerChar (c : Char) : Char :=
  if isAsciiUpper c then Char.ofNat (c.toNat + 32) else c

def lowerL (l : List Char) : List Char := l.map lowerChar

/-! ## Generic list-of-characters helpers -/

/-- JavaScript `String.prototype.trim`. -/
def trimL (l : List Char) : List Char :=
  ((l.dropWhile jsSpace).reverse.dropWhile jsSpace).reverse

def hasArabicL (l : List Char) : Bool := l.any isArabicChar

def hasArabicStr (s : String) : Bool := hasArabicL s.data

/-- Case-insensitive substring containment (`/pat/i.test(text)` for a literal
pattern). -/
def infixOfL (pat l : List Char) : Bool :=
  l.tails.any fun t => pat.isPrefixOf t

def containsCI (pat : String) (l : List Char) : Bool :=
  infixOfL (lowerL pat.data) (lowerL l)

/-- Case-insensitive prefix test. -/
def startsWithCI (pat : String) (l : List Char) : Bool :=
  (lowerL pat.data).isPrefixOf (lowerL l)

/-- Case-sensitive literal match at the head, returning the rest. -/
def dropLit (pat : String) (l : List Char) : Option (List Char) :=
  if pat.data.isPrefixOf l then some (l.drop pat.data.length) else none

/-- Case-insensitive literal match at the head, returning the rest. -/
def dropLitCI (pat : String) (l : List Char) : Option (List Char) :=
  if startsWithCI pat l then some (l.drop pat.data.length) else none

/-- Split on a separator character (JavaScript `split` on a one-character
string: keeps empty pieces). -/
def splitOnCharAux (sep : Char) (cur : List Char) : List Char → List (List Char)
  | [] => [cur.reverse]
  | c :: rest =>
    if c = sep then cur.reverse :: splitOnCharAux sep [] rest
    else splitOnCharAux sep (c :: cur) rest

def splitOnChar (sep : Char) (l : List Char) : List (List Char) :=
  splitOnCharAux sep [] l

/-- Maximal runs of characters that agree under `same` (used to realize `\b`
word-boundary reasoning and `\s+` collapsing). -/
def runsAux (same : Char → Char → Bool) (prev : Char) (acc : List Char) :
    List Char → List (List Char)
  | [] => [acc.reverse]
  | c :: rest =>
    if same prev c then runsAux same c (c :: acc) rest
    else acc.reverse :: runsAux same c [c] rest

def runs (same : Char → Char → Bool) : List Char → List (List Char)
  | [] => []
  | c :: rest => runsAux same c [c] rest

/-- Embeds `replace(/\s+/g, ' ')`: every maximal whitespace run becomes one space. -/
def collapseWs (l : List Char) : List Char :=
  ((runs (fun a b => jsSpace a == jsSpace b) l).map fun g =>
    match g with
    | c :: _ => if jsSpace c then [' '] else g
    | [] => []).flatten

/-- Deleting every maximal `\w`-run satisfying `bad`: the effect of a global
`\b…\b` regex replacement whose body consists of word characters only. -/
def removeWordRuns (bad : List Char → Bool) (l : List Char) : List Char :=
  ((runs (fun a b => isWordChar a == isWordChar b) l).map fun g =>
    match g with
    | c :: _ => if isWordChar c && bad g then [] else g
    | [] => []).flatten

/-- Global case-insensitive removal of literal alternatives (scans left to
right, tries the alternatives in order, restarts after each deletion), as in
`replace(/a|b|…/gi, '')`.  The patterns are supplied already lowercased; the
fuel is the input length, which suffices since every step consumes at least
one character. -/
def removeLitsAux (pats : List (List Char)) : Nat → List Char → List Char
  | 0, l => l
  | _ + 1, [] => []
  | fuel + 1, c :: rest =>
    match pats.find? (fun p => !p.isEmpty && p.isPrefixOf (lowerL (c :: rest))) with
    | some p => removeLitsAux pats fuel ((c :: rest).drop p.length)
    | none => c :: removeLitsAux pats fuel rest

def removeLits (pats : List String) (l : List Char) : List Char :=
  removeLitsAux (pats.map fun p => lowerL p.data) l.length l

/-- Leftmost-match scan: try the position matcher at every suffix, in order. -/
def scanTails {α : Type} (f : List Char → Option α) : List Char → Option α
  | [] => f []
  | c :: rest => (f (c :: rest)).orElse fun _ => scanTails f rest

/-- Leftmost-match scan that also supplies the character before the current
position (for `\b` left boundaries). -/
def scanPrevAux {α : Type} (f : Option Char → List Char → Option α)
    (prev : Option Char) : List Char → Option α
  | [] => f prev []
  | c :: rest => (f prev (c :: rest)).orElse fun _ => scanPrevAux f (some c) rest

def scanPrev {α : Type} (f : Option Char → List Char → Option α)
    (l : List Char) : Option α :=
  scanPrevAux f none l

/-- Embeds `\b` at a position: the previous character (if any) is not a word
character; the matched body always starts with a word character here. -/
def leftBoundary : Option Char → Bool
  | none => true
  | some c => !isWordChar c

/-- Embeds `\b` after a match body ending in a word character. -/
def rightBoundary : List Char → Bool
  | [] => true
  | c :: _ => !isWordChar c

/-! ## Document type detection (`detectDocumentType`) -/

inductive DocType where
  | visa
  | passport
deriving DecidableEq

/-- Embeds `/P<[A-Z]{3}/.test(text)`. -/
def hasMRZ1 (l : List Char) : Bool :=
  l.tails.any fun t =>
    match t with
    | 'P' :: '<' :: a :: b :: c :: _ =>
      isAsciiUpper a && isAsciiUpper b && isAsciiUpper c
    | _ => false

def isUpperAlnum (c : Char) : Bool := isAsciiUpper c || isAsciiDigit c

/-- Embeds `/[A-Z0-9]{9}[A-Z]{3}[0-9]{7}/.test(text)`. -/
def hasMRZ2 (l : List Char) : Bool :=
  l.tails.any fun t =>
    ((t.take 9).length = 9 && (t.take 9).all isUpperAlnum) &&
    (((t.drop 9).take 3).length = 3 && ((t.drop 9).take 3).all isAsciiUpper) &&
    (((t.drop 12).take 7).length = 7 && ((t.drop 12).take 7).all isAsciiDigit)

/-- Embeds `جواز\s*سفر`: the one passport keyword with a flexible-whitespace gap. -/
def hasJawazSafar (l : List Char) : Bool :=
  l.tails.any fun t =>
    match dropLit "جواز" t with
    | some r => ("سفر".data).isPrefixOf (r.dropWhile jsSpace)
    | none => false

/-- Embeds `/passport|passeport|جواز\s*سفر|royaume|kingdom/i.test(text)`. -/
def hasPassportKeywords (l : List Char) : Bool :=
  containsCI "passport" l || containsCI "passeport" l || hasJawazSafar l ||
  containsCI "royaume" l || containsCI "kingdom" l

/-- Embeds `/visa|تأشيرة|entry|umrah|hajj/i.test(text)`. -/
def hasVisaKeywords (l : List Char) : Bool :=
  containsCI "visa" l || containsCI "تأشيرة" l || containsCI "entry" l ||
  containsCI "umrah" l || containsCI "hajj" l

/-- Embeds `detectDocumentType` (ocrProcessor.ts lines 9–30). -/
def detectDocumentType (text : String) : DocType :=
  let hasMRZ := hasMRZ1 text.data || hasMRZ2 text.data
  let pass := hasPassportKeywords text.data
  let visa := hasVisaKeywords text.data
  if hasMRZ || pass then DocType.passport
  else if visa then DocType.visa
  else DocType.visa

/-! ## MRZ decoding (`parseMRZ`, ocrProcessor.ts lines 43–124) -/

structure MRZData where
  passportNumber : String
  dateOfBirth : String
  expiryDate : String
  nationality : String
  sex : String
  lastName : String
  firstName : String
deriving DecidableEq

/-- Embeds `replace(/\s/g, '')`. -/
def despace (l : List Char) : List Char := l.filter fun c => !jsSpace c

/-- Embeds `/^P<[A-Z]{3}/.test(line)`. -/
def isMRZLine1 : List Char → Bool
  | 'P' :: '<' :: a :: b :: c :: _ =>
    isAsciiUpper a && isAsciiUpper b && isAsciiUpper c
  | _ => false

/-- Embeds `/^[A-Z]{9,}[A-Z]{3}[0-9]{7}/.test(line)`: with backtracking this holds
exactly when the leading uppercase run has length at least 12 and is followed
by 7 digits (a shorter uppercase split would place a digit where an uppercase
letter stands, and vice versa). -/
def isMRZLine2 (l : List Char) : Bool :=
  let u := l.takeWhile isAsciiUpper
  let after := l.drop u.length
  u.length ≥ 12 && (after.take 7).length = 7 && (after.take 7).all isAsciiDigit

/-- The line-finding loop of `parseMRZ` (lines 54–72): returns the pair
`(mrzLine1, mrzLine2)`, either possibly empty.  `prev` carries the previous
line with whitespace stripped, empty at the first iteration exactly as
`lines[i-1]` is unavailable when `i = 0`. -/
def findMRZPairAux (prev : List Char) : List (List Char) → List Char × List Char
  | [] => ([], [])
  | line :: rest =>
    let d := despace line
    if isMRZLine1 d && d.length ≥ 40 then
      (d, match rest with
          | [] => []
          | nxt :: _ => despace nxt)
    else if isMRZLine2 d && d.length ≥ 40 then (prev, d)
    else findMRZPairAux d rest

/-- The two MRZ lines located in a text (after line splitting and trimming). -/
def mrzLinesOfText (text : String) : List Char × List Char :=
  findMRZPairAux [] (((splitOnChar '\n' text.data)).map trimL)

/-- JavaScript `substring(a, b)` (for `a ≤ b`): clamps to the string length. -/
def substringJS (l : List Char) (a b : Nat) : List Char :=
  (l.drop a).take (b - a)

/-- JavaScript `split('<<')`: non-overlapping, left to right. -/
def splitAngles : List Char → List (List Char) :=
  go []
where
  go (cur : List Char) : List Char → List (List Char)
    | '<' :: '<' :: rest => cur.reverse :: go [] rest
    | c :: rest => go (c :: cur) rest
    | [] => [cur.reverse]

/-- Embeds `replace(/</g, ' ')`. -/
def anglesToSpaces (l : List Char) : List Char :=
  l.map fun c => if c = '<' then ' ' else c

/-- JavaScript `parseInt` on the two-character slices the decoder feeds it
(the slices come from whitespace-stripped lines, so no leading whitespace is
possible): an optional sign, then leading decimal digits; a bare hex
introducer `0x` or a missing leading digit gives `NaN` (`none`). -/
def digitsToNat (l : List Char) : Nat :=
  l.foldl (fun n c => n * 10 + (c.toNat - 48)) 0

def jsParseInt (l : List Char) : Option Int :=
  if l = ['0', 'x'] || l = ['0', 'X'] then none
  else
    let sign : Int := if l.headD ' ' = '-' then -1 else 1
    let body := if l.headD ' ' = '-' || l.headD ' ' = '+' then l.drop 1 else l
    let d := body.takeWhile isAsciiDigit
    if d.isEmpty then none else some (sign * digitsToNat d)

/-- Embeds `convertDate` (lines 98–106): `YYMMDD → DD/MM/YYYY` with the `yy > 50`
century rule.  Note that `` `19${yy}` `` and `` `20${yy}` `` interpolate the
*number* `yy`, so leading zeros vanish and `NaN` prints literally. -/
def convertDateL (l : List Char) : List Char :=
  if l.length ≠ 6 then []
  else
    let yy := jsParseInt (l.take 2)
    let mm := substringJS l 2 4
    let dd := substringJS l 4 6
    let yyyy : List Char :=
      match yy with
      | some n => if n > 50 then '1' :: '9' :: (toString n).data
                  else '2' :: '0' :: (toString n).data
      | none => '2' :: '0' :: 'N' :: 'a' :: 'N' :: []
    dd ++ '/' :: mm ++ '/' :: yyyy

def convertDate (s : String) : String := ⟨convertDateL s.data⟩

/-- Embeds `parseMRZ` (lines 43–124).  The `try/catch` in the source is dead weight:
every operation inside clamps, so the embedded decoder is total and the only
`null` results are the missing-line ones. -/
def parseMRZ (text : String) : Option MRZData :=
  let m1 := (mrzLinesOfText text).1
  let m2 := (mrzLinesOfText text).2
  if m1.isEmpty || m2.isEmpty then none
  else
    let namePart := m1.drop 5
    let nameParts := splitAngles namePart
    let lastName := trimL (anglesToSpaces (nameParts.headD []))
    let firstName := trimL (anglesToSpaces ((nameParts.drop 1).headD []))
    some
      { passportNumber := ⟨trimL ((substringJS m2 0 9).filter fun c => c ≠ '<')⟩
        nationality := ⟨substringJS m2 10 13⟩
        dateOfBirth := ⟨convertDateL (substringJS m2 13 19)⟩
        sex := ⟨substringJS m2 20 21⟩
        expiryDate := ⟨convertDateL (substringJS m2 21 27)⟩
        lastName := ⟨lastName⟩
        firstName := ⟨firstName⟩ }

/-! ## Name extraction (`extractName` and its helper `cleanCandidate`,
ocrProcessor.ts lines 397–478) -/

/-- The words of `/^(Al|He|The|Of|In|By)$/i`. -/
def rejectWords : List (List Char) :=
  ["al", "he", "the", "of", "in", "by"].map String.data

def isRejectWord (l : List Char) : Bool := rejectWords.contains (lowerL l)

/-- The denylist of `/\b(?:KSA|Kingdom|Arabia|Saudi|He|Al|The|Visa|Digital|Embassy)\b/gi`. -/
def noiseWords : List (List Char) :=
  ["ksa", "kingdom", "arabia", "saudi", "he", "al", "the", "visa", "digital",
   "embassy"].map String.data

/-- The cleanup stages of `cleanCandidate` (lines 400–413) before the final
rejection guard, step by step as in the source. -/
def cleanStages (l0 : List Char) : List Char :=
  let s1 := l0.map fun c => if c = '\n' then ' ' else c
  let s2 := removeLits ["name", "الاسم", "full", "applicant"] s1
  let s3 := s2.map fun c =>
    if c = ':' || c = ',' || c = '-' || c = '.' then ' ' else c
  let s4 := collapseWs (trimL s3)
  let s5 :=
    if hasArabicL s4 then
      let a := trimL (removeWordRuns
        (fun g => g.length ≤ 4 && g.all isAsciiLower) s4)
      let b := trimL (removeLits ["glis"] a)
      trimL (b.filter fun c => !isAsciiDigit c)
    else s4
  trimL (removeWordRuns (fun g => noiseWords.contains (lowerL g)) s5)

/-- Embeds `cleanCandidate` (lines 399–421): the cleanup stages, then the rejection
guard (lines 416–418), then the final `trim` (line 420). -/
def cleanCandidateL (l0 : List Char) : List Char :=
  let s6 := cleanStages l0
  if isRejectWord s6 || s6.length < 3 then [] else trimL s6

def cleanCandidate (s : String) : String := ⟨cleanCandidateL s.data⟩

/-- The separator class `[:\s,.|]` of the name label patterns. -/
def nameSepChar (c : Char) : Bool :=
  c = ':' || jsSpace c || c = ',' || c = '.' || c = '|'

/-- The lookahead alternatives of the multiline name pattern. -/
def fieldKwAt (l : List Char) : Bool :=
  ["birth", "تاريخ", "passport", "رقم", "nationality", "الجنسية", "issue",
   "visa", "duration"].any fun k => startsWithCI k l

/-- Embeds `/(?:Name|الاسم)[:\s,.|]+([\s\S]+?)(?=(?:Birth|…|Duration))/i` at one
position: the label (the two alternatives cannot both match), then the
greedy separator run tried longest first, then the lazy capture tried
shortest first, ending where the lookahead fires. -/
def multilineNameAt (l : List Char) : Option (List Char) :=
  let lab : Option Nat :=
    if startsWithCI "name" l then some 4
    else if startsWithCI "الاسم" l then some 5
    else none
  match lab with
  | none => none
  | some n =>
    let rest := l.drop n
    let maxSep := (rest.takeWhile nameSepChar).length
    (List.range maxSep).findSome? fun j =>
      let after := rest.drop (maxSep - j)
      (List.range after.length).findSome? fun i =>
        if fieldKwAt (after.drop (i + 1)) then some (after.take (i + 1))
        else none

/-- A single-line label pattern `label[sep]+([^\n]+)` at one position: the
separator run can end anywhere (it includes `\n`), the capture is the maximal
nonempty run of non-newline characters. -/
def singleLineNameAt (sep : Char → Bool) (label : String) (l : List Char) :
    Option (List Char) :=
  if startsWithCI label l then
    let rest := l.drop label.data.length
    let maxSep := (rest.takeWhile sep).length
    (List.range maxSep).findSome? fun j =>
      let cap := (rest.drop (maxSep - j)).takeWhile fun c => c ≠ '\n'
      if cap.isEmpty then none else some cap
  else none

/-- The raw Strategy-1 capture (lines 425–444): the multiline pattern first,
then `/Name[:\s,.|]+([^\n]+)/i`, then `/الاسم[:\s]+([^\n]+)/`, else empty. -/
def rawNameOf (text : List Char) : List Char :=
  match scanTails multilineNameAt text with
  | some c => c
  | none =>
    match scanTails (singleLineNameAt nameSepChar "name") text with
    | some c => c
    | none =>
      match scanTails
        (singleLineNameAt (fun c => c = ':' || jsSpace c) "الاسم") text with
      | some c => c
      | none => []

/-- Strategy 1 of `extractName`: regex anchors plus cleanup. -/
def strategy1Name (text : String) : String := ⟨cleanCandidateL (rawNameOf text.data)⟩

/-- Embeds `/^Kingdom|Ministry|Visa|Passport|Date|Duration|Place/i.test(line)`: only
the first alternative is anchored; the test runs on the *untrimmed* line. -/
def isHeaderLineEn (line : List Char) : Bool :=
  startsWithCI "kingdom" line || containsCI "ministry" line ||
  containsCI "visa" line || containsCI "passport" line ||
  containsCI "date" line || containsCI "duration" line ||
  containsCI "place" line

/-- The Arabic header denylist of Strategy 2 (line 462). -/
def nameArabicHeaders : List String :=
  ["المملكة", "العربية", "السعودية", "وزارة", "الخارجية", "تأشيرة", "زيارة",
   "مرور", "جواز", "تاريخ", "الجنسية", "المهنة", "صاحب", "العمل"]

def hasNameArabicHeader (l : List Char) : Bool :=
  nameArabicHeaders.any fun w => infixOfL w.data l

/-- The Strategy-2 line scan (lines 454–474): the first Arabic-containing,
non-header line whose cleaned form splits (on single spaces, JavaScript
`split(' ')` counting empty pieces) into at least 2 parts and is shorter than
50 characters. -/
def scanFirstAccepted (text : String) : Option String :=
  (splitOnChar '\n' text.data).findSome? fun line =>
    if !hasArabicL (trimL line) then none
    else if isHeaderLineEn line then none
    else if hasNameArabicHeader (trimL line) then none
    else
      if (splitOnChar ' ' (cleanCandidateL (trimL line))).length ≥ 2 &&
          (cleanCandidateL (trimL line)).length < 50 then
        some ⟨cleanCandidateL (trimL line)⟩
      else none

/-- Embeds `extractName` (lines 397–478). -/
def extractName (text : String) : String :=
  let finalName := strategy1Name text
  if (finalName = "" ∨ finalName.length < 3 ∨ hasArabicStr finalName = false)
      ∧ 10 < text.length then
    (scanFirstAccepted text).getD finalName
  else finalName

/-! ## Field extractors (`extractPassportNumber`, `extractVisaNumber`,
`extractBirthDate`, ocrProcessor.ts lines 480–526) -/

/-- Embeds `[A-Z0-9]` under the `i` flag: any ASCII letter or digit. -/
def isAlnumCI (c : Char) : Bool := isAsciiLetter c || isAsciiDigit c

/-- Embeds `/Passport\s*No[.:\s]+([A-Z0-9]+)/i` at one position.  The separator
class `[.:\s]` is disjoint from the capture class, so the greedy runs need no
backtracking. -/
def passportNoAt (l : List Char) : Option (List Char) :=
  match dropLitCI "passport" l with
  | none => none
  | some r1 =>
    match dropLitCI "no" (r1.dropWhile jsSpace) with
    | none => none
    | some r3 =>
      let sepRun := r3.takeWhile fun c => c = '.' || c = ':' || jsSpace c
      if sepRun.isEmpty then none
      else
        let cap := (r3.drop sepRun.length).takeWhile isAlnumCI
        if cap.isEmpty then none else some cap

/-- Embeds `/رقم\s*جواز\s*السفر[:\s]+([A-Z0-9]+)/` at one position (no `i` flag:
the capture class is uppercase letters and digits only). -/
def arabicPassportNoAt (l : List Char) : Option (List Char) :=
  match dropLit "رقم" l with
  | none => none
  | some r1 =>
    match dropLit "جواز" (r1.dropWhile jsSpace) with
    | none => none
    | some r2 =>
      match dropLit "السفر" (r2.dropWhile jsSpace) with
      | none => none
      | some r3 =>
        let sepRun := r3.takeWhile fun c => c = ':' || jsSpace c
        if sepRun.isEmpty then none
        else
          let cap := (r3.drop sepRun.length).takeWhile isUpperAlnum
          if cap.isEmpty then none else some cap

/-- Embeds `/[A-Z]{1,2}\d{7,9}/` at one position: two letters preferred over one,
nine digits preferred over seven, exactly the backtracking order.  Returns
the whole match. -/
def barePassportAt (l : List Char) : Option (List Char) :=
  let tryN : Nat → Option (List Char) := fun nL =>
    let letters := l.take nL
    if letters.length = nL && letters.all isAsciiUpper then
      let rest := l.drop nL
      [9, 8, 7].findSome? fun nD =>
        let d := rest.take nD
        if d.length = nD && d.all isAsciiDigit then some (letters ++ d)
        else none
    else none
  (tryN 2).orElse fun _ => tryN 1

/-- Embeds `extractPassportNumber` (lines 480–494): first matching pattern wins;
a grouped pattern returns the trimmed group, the bare one the whole match. -/
def extractPassportNumber (text : String) : String :=
  match scanTails passportNoAt text.data with
  | some c => ⟨trimL c⟩
  | none =>
    match scanTails arabicPassportNoAt text.data with
    | some c => ⟨trimL c⟩
    | none =>
      match scanTails barePassportAt text.data with
      | some c => ⟨trimL c⟩
      | none => ""

/-- Embeds `/Visa\s*No[.:\s]+(\d+)/i` at one position. -/
def visaNoAt (l : List Char) : Option (List Char) :=
  match dropLitCI "visa" l with
  | none => none
  | some r1 =>
    match dropLitCI "no" (r1.dropWhile jsSpace) with
    | none => none
    | some r3 =>
      let sepRun := r3.takeWhile fun c => c = '.' || c = ':' || jsSpace c
      if sepRun.isEmpty then none
      else
        let cap := (r3.drop sepRun.length).takeWhile isAsciiDigit
        if cap.isEmpty then none else some cap

/-- Embeds `/رقم\s*التأشيرة[:\s]+(\d+)/` at one position. -/
def arabicVisaNoAt (l : List Char) : Option (List Char) :=
  match dropLit "رقم" l with
  | none => none
  | some r1 =>
    match dropLit "التأشيرة" (r1.dropWhile jsSpace) with
    | none => none
    | some r2 =>
      let sepRun := r2.takeWhile fun c => c = ':' || jsSpace c
      if sepRun.isEmpty then none
      else
        let cap := (r2.drop sepRun.length).takeWhile isAsciiDigit
        if cap.isEmpty then none else some cap

/-- Embeds `/\b\d{10,12}\b/`: with both boundaries inside mandatory word
characters, a match is exactly a maximal `\w`-run that is all digits and 10
to 12 long; the first such run wins. -/
def bareVisaNumber (text : List Char) : Option (List Char) :=
  (runs (fun a b => isWordChar a == isWordChar b) text).findSome? fun g =>
    match g with
    | c :: _ =>
      if isWordChar c && g.all isAsciiDigit && 10 ≤ g.length && g.length ≤ 12
      then some g else none
    | [] => none

/-- Embeds `extractVisaNumber` (lines 496–510). -/
def extractVisaNumber (text : String) : String :=
  match scanTails visaNoAt text.data with
  | some c => ⟨trimL c⟩
  | none =>
    match scanTails arabicVisaNoAt text.data with
    | some c => ⟨trimL c⟩
    | none =>
      match bareVisaNumber text.data with
      | some c => ⟨trimL c⟩
      | none => ""

/-- Embeds `\d{2}/\d{2}/\d{4}` at one position (slashes only), returning the ten
matched characters. -/
def dateShapeAt (l : List Char) : Option (List Char) :=
  match l with
  | a :: b :: s1 :: c :: d :: s2 :: e :: f :: g :: h :: _ =>
    if isAsciiDigit a && isAsciiDigit b && s1 = '/' && isAsciiDigit c &&
       isAsciiDigit d && s2 = '/' && isAsciiDigit e && isAsciiDigit f &&
       isAsciiDigit g && isAsciiDigit h then
      some [a, b, s1, c, d, s2, e, f, g, h]
    else none
  | _ => none

/-- Embeds `/Birth\s*Date[:\s]+(\d{2}\/\d{2}\/\d{4})/i` at one position. -/
def birthDateEnAt (l : List Char) : Option (List Char) :=
  match dropLitCI "birth" l with
  | none => none
  | some r1 =>
    match dropLitCI "date" (r1.dropWhile jsSpace) with
    | none => none
    | some r2 =>
      let sepRun := r2.takeWhile fun c => c = ':' || jsSpace c
      if sepRun.isEmpty then none else dateShapeAt (r2.drop sepRun.length)

/-- Embeds `/تاريخ\s*الميلاد[:\s]+(\d{2}\/\d{2}\/\d{4})/` at one position. -/
def birthDateArAt (l : List Char) : Option (List Char) :=
  match dropLit "تاريخ" l with
  | none => none
  | some r1 =>
    match dropLit "الميلاد" (r1.dropWhile jsSpace) with
    | none => none
    | some r2 =>
      let sepRun := r2.takeWhile fun c => c = ':' || jsSpace c
      if sepRun.isEmpty then none else dateShapeAt (r2.drop sepRun.length)

/-- Embeds `/\b\d{2}\/\d{2}\/\d{4}\b/` at one position, given the previous
character. -/
def bareDateAt (prev : Option Char) (l : List Char) : Option (List Char) :=
  if leftBoundary prev then
    match dateShapeAt l with
    | some m => if rightBoundary (l.drop 10) then some m else none
    | none => none
  else none

/-- Embeds `extractBirthDate` (lines 512–526). -/
def extractBirthDate (text : String) : String :=
  match scanTails birthDateEnAt text.data with
  | some c => ⟨trimL c⟩
  | none =>
    match scanTails birthDateArAt text.data with
    | some c => ⟨trimL c⟩
    | none =>
      match scanPrev bareDateAt text.data with
      | some c => ⟨trimL c⟩
      | none => ""

/-! ## Passport bio-page extractors (`extractArabicNameFromPassport`,
`extractPassportNumberFromPassport`, `extractBirthDateFromPassport`,
`extractPassportData`, ocrProcessor.ts lines 126–221) -/

/-- The Arabic header/label denylist of the passport bio-page name scan
(line 137). -/
def passportArabicHeaders : List String :=
  ["المملكة", "العربية", "المغربية", "السعودية", "وزارة", "الخارجية",
   "تأشيرة", "زيارة", "مرور", "جواز", "تاريخ", "الجنسية", "المهنة", "صاحب",
   "العمل", "الاسم", "الميلاد", "الإصدار", "الصلاحية", "رقم"]

def hasPassportArabicHeader (l : List Char) : Bool :=
  passportArabicHeaders.any fun w => infixOfL w.data l

/-- Embeds `/^(PASSPORT|PASSEPORT|KINGDOM|ROYAUME|MAROC|MOROCCO|MAR)/i.test(trimmed)`. -/
def hasPassportLatinHeader (l : List Char) : Bool :=
  ["passport", "passeport", "kingdom", "royaume", "maroc", "morocco",
   "mar"].any fun w => startsWithCI w l

/-- A maximal word run matching `[A-Z][a-z]+` entirely (the shape removed by
`/\b[A-Z][a-z]+\b/g`). -/
def isCapitalizedWord : List Char → Bool
  | c :: rest => isAsciiUpper c && !rest.isEmpty && rest.all isAsciiLower
  | [] => false

/-- Embeds `extractArabicNameFromPassport` (lines 127–166).  The float comparison
`arabicChars / totalChars > 0.7` is modelled exactly as the rational
`10 * arabicChars > 7 * totalChars`: with both counts below 50 the double
quotient is never within rounding distance of the literal `0.7` unless the
ratio is exactly `7/10`, which both sides classify as not greater. -/
def extractArabicNameFromPassport (text : String) : String :=
  ((splitOnChar '\n' text.data).findSome? fun line =>
    let trimmed := trimL line
    if !hasArabicL trimmed then none
    else if hasPassportArabicHeader trimmed then none
    else if hasPassportLatinHeader trimmed then none
    else
      let a := removeLits ["name", "الاسم", "full", "applicant"] trimmed
      let b := a.map fun c =>
        if c = ':' || c = '-' || c = '.' || c = '،' then ' ' else c
      let candidate0 := trimL (collapseWs b)
      let c1 := trimL (removeWordRuns isCapitalizedWord candidate0)
      let c2 := trimL (c1.filter fun c => !isAsciiDigit c)
      let words := (splitOnChar ' ' c2).filter fun w => w.length > 0
      if words.length ≥ 2 && 5 ≤ c2.length && c2.length < 50 then
        let arabicChars := (c2.filter isArabicChar).length
        let totalChars := (c2.filter fun c => !jsSpace c).length
        if 10 * arabicChars > 7 * totalChars then some (⟨c2⟩ : String)
        else none
      else none).getD ""

/-- The label alternation of the passport-number fallback pattern
(line 194); at most one alternative can match at a given position. -/
def ppnFallbackLabelAt (l : List Char) : Option (List Char) :=
  (dropLitCI "passport" l).orElse fun _ =>
  (dropLitCI "passeport" l).orElse fun _ =>
  (match dropLitCI "n°" l with
   | some r1 =>
     match dropLitCI "de" (r1.dropWhile jsSpace) with
     | some r2 => dropLitCI "passeport" (r2.dropWhile jsSpace)
     | none => none
   | none => none).orElse fun _ =>
  match dropLit "رقم" l with
  | some r1 => dropLit "الجواز" (r1.dropWhile jsSpace)
  | none => none

/-- The capture `([A-Z]{2}[0-9]{7,9})` under the `i` flag: two letters then
a greedy digit run of 7 to 9. -/
def ppnShapeCI (l : List Char) : Option (List Char) :=
  match l with
  | a :: b :: rest =>
    if isAsciiLetter a && isAsciiLetter b then
      let d := rest.takeWhile isAsciiDigit
      if 7 ≤ d.length then some (a :: b :: d.take (min 9 d.length)) else none
    else none
  | _ => none

/-- Embeds `/(?:Passport|Passeport|N°\s*de\s*Passeport|رقم\s*الجواز)[:\s]+([A-Z]{2}[0-9]{7,9})/i`
at one position. -/
def ppnFallbackAt (l : List Char) : Option (List Char) :=
  match ppnFallbackLabelAt l with
  | none => none
  | some r =>
    let sepRun := r.takeWhile fun c => c = ':' || jsSpace c
    if sepRun.isEmpty then none else ppnShapeCI (r.drop sepRun.length)

/-- Embeds `/\b([A-Z]{2}[0-9]{7,9})\b/` at one position: at a left boundary, two
strict uppercase letters, then a digit run that must be 7 to 9 long in its
entirety (a longer run leaves a digit on the right boundary) followed by a
non-word character or the end. -/
def ppnBareAt (prev : Option Char) (l : List Char) : Option (List Char) :=
  if leftBoundary prev then
    match l with
    | a :: b :: rest =>
      if isAsciiUpper a && isAsciiUpper b then
        let d := rest.takeWhile isAsciiDigit
        if 7 ≤ d.length && d.length ≤ 9 && rightBoundary (rest.drop d.length)
        then some (a :: b :: d)
        else none
      else none
    | _ => none
  else none

/-- Embeds `extractPassportNumberFromPassport` (lines 192–205). -/
def extractPassportNumberFromPassport (text : String) : String :=
  match scanTails ppnFallbackAt text.data with
  | some c => ⟨trimL c⟩
  | none =>
    match scanPrev ppnBareAt text.data with
    | some c => ⟨trimL c⟩
    | none => ""

/-- Embeds `[0-9]{2}[\/\-][0-9]{2}[\/\-][0-9]{4}` at one position, slashes or
hyphens. -/
def dateShapeDashAt (l : List Char) : Option (List Char) :=
  match l with
  | a :: b :: s1 :: c :: d :: s2 :: e :: f :: g :: h :: _ =>
    if isAsciiDigit a && isAsciiDigit b && (s1 = '/' || s1 = '-') &&
       isAsciiDigit c && isAsciiDigit d && (s2 = '/' || s2 = '-') &&
       isAsciiDigit e && isAsciiDigit f && isAsciiDigit g && isAsciiDigit h
    then some [a, b, s1, c, d, s2, e, f, g, h]
    else none
  | _ => none

/-- The label alternation of the birth-date fallback (line 210): the first
two alternatives share the prefix `Date`, so they are tried in order as
whole alternatives. -/
def birthFallbackLabelAt (l : List Char) : Option (List Char) :=
  (match dropLitCI "date" l with
   | some r1 =>
     match dropLitCI "of" (r1.dropWhile jsSpace) with
     | some r2 => dropLitCI "birth" (r2.dropWhile jsSpace)
     | none => none
   | none => none).orElse fun _ =>
  (match dropLitCI "date" l with
   | some r1 =>
     match dropLitCI "de" (r1.dropWhile jsSpace) with
     | some r2 => dropLitCI "naissance" (r2.dropWhile jsSpace)
     | none => none
   | none => none).orElse fun _ =>
  match dropLit "تاريخ" l with
  | some r1 => dropLit "الميلاد" (r1.dropWhile jsSpace)
  | none => none

def birthFallbackAt (l : List Char) : Option (List Char) :=
  match birthFallbackLabelAt l with
  | none => none
  | some r =>
    let sepRun := r.takeWhile fun c => c = ':' || jsSpace c
    if sepRun.isEmpty then none else dateShapeDashAt (r.drop sepRun.length)

def birthBareDashAt (prev : Option Char) (l : List Char) : Option (List Char) :=
  if leftBoundary prev then
    match dateShapeDashAt l with
    | some m => if rightBoundary (l.drop 10) then some m else none
    | none => none
  else none

/-- Embeds `extractBirthDateFromPassport` (lines 208–221): the match is returned
with hyphens replaced by slashes. -/
def extractBirthDateFromPassport (text : String) : String :=
  let dash2slash : List Char → List Char := fun l =>
    l.map fun c => if c = '-' then '/' else c
  match scanTails birthFallbackAt text.data with
  | some c => ⟨dash2slash c⟩
  | none =>
    match scanPrev birthBareDashAt text.data with
    | some c => ⟨dash2slash c⟩
    | none => ""

/-- The result shape of `extractPassportData` (lines 169–189): the fields it
may set, `none` when absent as in the TypeScript `Partial`. -/
structure PassportData where
  passportNumber : Option String
  birthDate : Option String
  arabicName : Option String
deriving DecidableEq

/-- Embeds `extractPassportData` (lines 169–189). -/
def extractPassportData (text : String) (mrz : Option MRZData) : PassportData :=
  let base : PassportData :=
    match mrz with
    | some m =>
      { passportNumber := some m.passportNumber
        birthDate := some m.dateOfBirth
        arabicName := none }
    | none =>
      { passportNumber := some (extractPassportNumberFromPassport text)
        birthDate := some (extractBirthDateFromPassport text)
        arabicName := none }
  let an := extractArabicNameFromPassport text
  if an ≠ "" then { base with arabicName := some an } else base

/-! ## Transliteration and email synthesis (`transliterateArabic`,
`generateEmailFromPassport`, `generateEmail`, ocrProcessor.ts lines 528–628) -/

/-- The `arabicToLatinMap` object (lines 528–541), as written.  The `'لا'`
entry has a two-codepoint key, and the lookup below is by single character,
so that entry can never be hit — exactly as in the JavaScript source. -/
def arabicToLatinMap : List (String × String) :=
  [("ا", "a"), ("أ", "a"), ("إ", "e"), ("آ", "a"),
   ("ب", "b"), ("ت", "t"), ("ث", "th"),
   ("ج", "j"), ("ح", "h"), ("خ", "kh"),
   ("د", "d"), ("ذ", "dh"), ("ر", "r"), ("ز", "z"),
   ("س", "s"), ("ش", "sh"), ("ص", "s"), ("ض", "d"),
   ("ط", "t"), ("ظ", "z"), ("ع", "a"), ("غ", "gh"),
   ("ف", "f"), ("ق", "q"), ("ك", "k"), ("ل", "l"),
   ("م", "m"), ("ن", "n"), ("ه", "h"), ("و", "w"), ("ي", "y"), ("ى", "a"),
   ("ة", "ah"), ("ء", "a"), ("ؤ", "u"), ("ئ", "e"),
   ("لا", "la")]

/-- One character of `transliterateArabic`: the map value when present,
the character itself when it matches `[0-9\sA-Za-z]`, nothing otherwise. -/
def translitChar (c : Char) : List Char :=
  match arabicToLatinMap.find? (fun e => e.1 = String.mk [c]) with
  | some e => e.2.data
  | none =>
    if isAsciiDigit c || jsSpace c || isAsciiLetter c then [c] else []

/-- Embeds `transliterateArabic` (lines 543–557). -/
def transliterateArabic (s : String) : String :=
  ⟨(s.data.map translitChar).flatten⟩

/-- JavaScript `trimmed.split(/\s+/)` as used on a trimmed string: the empty
string yields `[""]`, otherwise the nonempty whitespace-free tokens. -/
def splitWsJS (l : List Char) : List (List Char) :=
  let t := trimL l
  if t.isEmpty then [[]]
  else
    (runs (fun a b => jsSpace a == jsSpace b) t).filter fun g =>
      match g with
      | c :: _ => !jsSpace c
      | [] => false

/-- The passport email handle (lines 564–570): lowercased space-stripped
last name, then the first three characters of the lowercased space-stripped
first name. -/
def mrzEmailLocal (lastName firstName : List Char) : List Char :=
  despace (lowerL lastName) ++ (despace (lowerL firstName)).take 3

/-- The visa email handle (lines 606–609): lowercased first token, then the
first three characters of the lowercased second token. -/
def visaEmailLocal (p0 p1 : List Char) : List Char :=
  lowerL p0 ++ (lowerL p1).take 3

def emailDomain : List Char := "@comfythings.com".data

/-- The first-word denylist of the English-name fallback (line 621). -/
def engRejectFirst (f : List Char) : Bool :=
  ["name", "passport", "visa", "birth", "date", "place", "type", "code",
   "sex", "nationality", "saudi", "digital", "ministry", "umrah", "hajj",
   "kingdom"].any fun k => startsWithCI k f

/-- Embeds `([A-Z][a-z]+)\s+([A-Z][a-z]+)` at one position; all three runs are
greedy over pairwise-disjoint classes, so no backtracking arises.  Returns
the two words and the input remaining after the whole match. -/
def engPairAt (l : List Char) : Option (List Char × List Char × List Char) :=
  match l with
  | c :: rest =>
    if isAsciiUpper c then
      let lo1 := rest.takeWhile isAsciiLower
      if lo1.isEmpty then none
      else
        let r1 := rest.drop lo1.length
        let ws := r1.takeWhile jsSpace
        if ws.isEmpty then none
        else
          match r1.drop ws.length with
          | d :: rest2 =>
            if isAsciiUpper d then
              let lo2 := rest2.takeWhile isAsciiLower
              if lo2.isEmpty then none
              else some (c :: lo1, d :: lo2, rest2.drop lo2.length)
            else none
          | [] => none
    else none
  | [] => none

/-- The `exec` loop of the English-name fallback (lines 617–625): find the
next match, skip past it entirely when its first word is denylisted, stop at
the first acceptable one.  Fuel is the input length; every step strictly
shortens the input. -/
def engPairScanAux : Nat → List Char → Option (List Char × List Char)
  | 0, _ => none
  | _ + 1, [] => none
  | fuel + 1, c :: rest =>
    match engPairAt (c :: rest) with
    | some (f, s, after) =>
      if engRejectFirst f then engPairScanAux fuel after else some (f, s)
    | none => engPairScanAux fuel rest

def engPairScan (l : List Char) : Option (List Char × List Char) :=
  engPairScanAux l.length l

/-- Embeds `generateEmail` (lines 594–628). -/
def generateEmail (text detectedArabicName : String) : String :=
  if detectedArabicName ≠ "" ∧ hasArabicStr detectedArabicName then
    let latinName := transliterateArabic detectedArabicName
    let parts := splitWsJS latinName.data
    if parts.length ≥ 2 then
      ⟨visaEmailLocal (parts.headD []) ((parts.drop 1).headD []) ++ emailDomain⟩
    else
      -- `splitWsJS` never returns an empty list, so this is the
      -- `parts.length === 1` branch of the source.
      ⟨lowerL (parts.headD []) ++ emailDomain⟩
  else
    match engPairScan text.data with
    | some (f, s) => ⟨lowerL (f ++ s.take 3) ++ emailDomain⟩
    | none => ""

/-- Embeds `generateEmailFromPassport` (lines 561–592). -/
def generateEmailFromPassport (mrz : MRZData) (detectedArabicName : String) :
    String :=
  if mrz.lastName ≠ "" ∧ mrz.firstName ≠ "" then
    ⟨mrzEmailLocal mrz.lastName.data mrz.firstName.data ++ emailDomain⟩
  else if detectedArabicName ≠ "" ∧ hasArabicStr detectedArabicName then
    let parts := splitWsJS (transliterateArabic detectedArabicName).data
    if parts.length ≥ 2 then
      ⟨lowerL (parts.getLastD []) ++ (lowerL (parts.headD [])).take 3 ++
        emailDomain⟩
    else ""
  else ""

/-! ## The pipeline core (`extractVisaData`, ocrProcessor.ts lines 223–300)

The OCR, PDF rasterization and photo steps are external collaborators; the
core below is `extractVisaData` from the recognized text onward, with the
photo collaborator's result passed in as `profilePhoto`. -/

structure VisaData where
  fullName : String
  email : String
  passportNumber : String
  visaNumber : String
  birthDate : String
  clientPhoto : String
deriving DecidableEq

/-- JavaScript `a || b` for strings: `a` unless it is empty. -/
def jsOrStr (a b : String) : String := if a = "" then b else a

/-- The text-processing core of `extractVisaData` (lines 240–295). -/
def extractVisaDataCore (text profilePhoto : String) : VisaData :=
  let docType := detectDocumentType text
  let mrzData : Option MRZData :=
    if docType = DocType.passport then parseMRZ text else none
  let extractedArabicName := extractName text
  match docType, mrzData with
  | DocType.passport, some mrz =>
    let passportData := extractPassportData text (some mrz)
    let finalFullName :=
      jsOrStr (passportData.arabicName.getD "")
        (jsOrStr extractedArabicName
          (mrz.firstName ++ " " ++ mrz.lastName))
    { fullName := finalFullName
      email := generateEmailFromPassport mrz finalFullName
      passportNumber := jsOrStr (passportData.passportNumber.getD "") ""
      visaNumber := ""
      birthDate := jsOrStr (passportData.birthDate.getD "") ""
      clientPhoto := profilePhoto }
  | _, _ =>
    { fullName := extractedArabicName
      email := generateEmail text extractedArabicName
      passportNumber := extractPassportNumber text
      visaNumber := extractVisaNumber text
      birthDate := extractBirthDate text
      clientPhoto := profilePhoto }

/-! ## Specification-side definitions

`detectDocumentTypeSpec` restates the classifier the way the specification
describes it — a four-step decision list — to be compared with the embedded
`detectDocumentType`. -/

/-- The classifier as the specification words it: passport on an MRZ-shaped
pattern; else passport on a passport keyword; else visa on a visa keyword;
else visa by default. -/
def detectDocumentTypeSpec (text : String) : DocType :=
  if hasMRZ1 text.data || hasMRZ2 text.data then DocType.passport
  else if hasPassportKeywords text.data then DocType.passport
  else if hasVisaKeywords text.data then DocType.visa
  else DocType.visa

/-- Lowercase ASCII letter or ASCII digit (the alphabet of visa-path email
handles). -/
def isLowerAlnum (c : Char) : Bool := isAsciiLower c || isAsciiDigit c

/-! ## Infrastructure lemmas -/

theorem dropWhile_head_false {p : Char → Bool} :
    ∀ {l : List Char} {c : Char} {rest : List Char},
      l.dropWhile p = c :: rest → p c = false := by
  intro l
  induction l with
  | nil => intro c rest h; simp [List.dropWhile] at h
  | cons a t ih =>
    intro c rest h
    rw [List.dropWhile_cons] at h
    by_cases hp : p a = true
    · rw [if_pos hp] at h; exact ih h
    · rw [if_neg hp] at h
      cases h
      simpa using hp

theorem dropWhile_dropWhile {p : Char → Bool} (l : List Char) :
    (l.dropWhile p).dropWhile p = l.dropWhile p := by
  cases h : l.dropWhile p with
  | nil => rfl
  | cons c rest =>
    rw [List.dropWhile_cons]
    simp [dropWhile_head_false h]

theorem trimL_trimL (l : List Char) : trimL (trimL l) = trimL l := by
  unfold trimL
  set u := l.dropWhile jsSpace with hu
  set X := u.reverse.dropWhile jsSpace with hX
  have hXdrop : X.reverse.dropWhile jsSpace = X.reverse := by
    cases hXr : X.reverse with
    | nil => rfl
    | cons c rest =>
      have h1 : X.getLast? = some c := by
        rw [← List.head?_reverse, hXr]; rfl
      obtain ⟨t, ht⟩ : X <:+ u.reverse := hX ▸ List.dropWhile_suffix jsSpace
      have h2 : u.reverse.getLast? = some c := by
        rw [← ht, List.getLast?_append, h1]; rfl
      have h3 : u.head? = some c := by rw [← List.getLast?_reverse]; exact h2
      have h4 : jsSpace c = false := by
        cases hu2 : u with
        | nil => rw [hu2] at h3; simp at h3
        | cons d rest2 =>
          have hd : jsSpace d = false :=
            dropWhile_head_false (hu ▸ hu2 : l.dropWhile jsSpace = d :: rest2)
          rw [hu2] at h3
          simp only [List.head?_cons, Option.some.injEq] at h3
          rwa [← h3]
      rw [List.dropWhile_cons]
      simp [h4]
  rw [hXdrop, List.reverse_reverse, hX, dropWhile_dropWhile]

theorem mem_trimL {c : Char} {l : List Char} (h : c ∈ trimL l) : c ∈ l := by
  unfold trimL at h
  rw [List.mem_reverse] at h
  have h2 := (List.dropWhile_sublist _).subset h
  rw [List.mem_reverse] at h2
  exact (List.dropWhile_sublist _).subset h2

theorem findSome?_mem {α β : Type} {f : α → Option β} :
    ∀ {L : List α} {b : β}, L.findSome? f = some b →
      ∃ a, a ∈ L ∧ f a = some b := by
  intro L
  induction L with
  | nil => intro b h; simp [List.findSome?] at h
  | cons x t ih =>
    intro b h
    rw [List.findSome?_cons] at h
    cases hf : f x with
    | some v =>
      rw [hf] at h
      exact ⟨x, List.mem_cons_self x t, by rw [hf]; exact h⟩
    | none =>
      rw [hf] at h
      obtain ⟨a, ha, hfa⟩ := ih h
      exact ⟨a, List.mem_cons_of_mem _ ha, hfa⟩

theorem runsAux_flatten (same : Char → Char → Bool) :
    ∀ (l : List Char) (prev : Char) (acc : List Char),
      (runsAux same prev acc l).flatten = acc.reverse ++ l := by
  intro l
  induction l with
  | nil => intro prev acc; simp [runsAux]
  | cons c rest ih =>
    intro prev acc
    simp only [runsAux]
    by_cases h : same prev c = true
    · rw [if_pos h, ih]
      simp
    · rw [if_neg h]
      rw [List.flatten_cons, ih]
      simp

theorem runs_flatten (same : Char → Char → Bool) (l : List Char) :
    (runs same l).flatten = l := by
  cases l with
  | nil => rfl
  | cons c rest =>
    simp only [runs]
    rw [runsAux_flatten]
    rfl

theorem runsAux_agree (f : Char → Bool) :
    ∀ (l : List Char) (prev : Char) (acc : List Char),
      (∀ a ∈ acc, f a = f prev) →
      ∀ g ∈ runsAux (fun a b => f a == f b) prev acc l,
        ∀ c ∈ g, ∀ d ∈ g, f c = f d := by
  intro l
  induction l with
  | nil =>
    intro prev acc hacc g hg c hc d hd
    simp only [runsAux, List.mem_singleton] at hg
    subst hg
    rw [List.mem_reverse] at hc hd
    rw [hacc c hc, hacc d hd]
  | cons x rest ih =>
    intro prev acc hacc g hg c hc d hd
    simp only [runsAux] at hg
    by_cases h : (f prev == f x) = true
    · rw [if_pos h] at hg
      have hx : f prev = f x := by simpa using h
      refine ih x (x :: acc) ?_ g hg c hc d hd
      intro a ha
      rcases List.mem_cons.mp ha with ha1 | ha2
      · rw [ha1]
      · rw [hacc a ha2, hx]
    · rw [if_neg h] at hg
      rcases List.mem_cons.mp hg with hg1 | hg2
      · subst hg1
        rw [List.mem_reverse] at hc hd
        rw [hacc c hc, hacc d hd]
      · refine ih x [x] ?_ g hg2 c hc d hd
        intro a ha
        rw [List.mem_singleton.mp ha]

theorem runs_agree (f : Char → Bool) (l : List Char) :
    ∀ g ∈ runs (fun a b => f a == f b) l, ∀ c ∈ g, ∀ d ∈ g, f c = f d := by
  cases l with
  | nil => intro g hg; simp [runs] at hg
  | cons x rest =>
    intro g hg c hc d hd
    simp only [runs] at hg
    refine runsAux_agree f rest x [x] ?_ g hg c hc d hd
    intro a ha
    rw [List.mem_singleton.mp ha]

theorem mem_of_mem_runs {same : Char → Char → Bool} {g : List Char}
    {l : List Char} (hg : g ∈ runs same l) {c : Char} (hc : c ∈ g) : c ∈ l := by
  rw [← runs_flatten same l]
  exact List.mem_flatten.mpr ⟨g, hg, hc⟩

/-! ## Claim C1 — visa number on the passport path -/

/-- C1, counterexample: a text that classifies as passport by keyword but has
no decodable MRZ falls through to the *visa* extraction branch, where the
bare 10–12 digit pattern fills `visaNumber`; the record's visa number is not
the empty string the claim requires for every passport-classified text. -/
theorem extractVisaData_passport_visaNumber_cex :
    detectDocumentType "passport 12345678901" = DocType.passport ∧
    parseMRZ "passport 12345678901" = none ∧
    (extractVisaDataCore "passport 12345678901" "").visaNumber = "12345678901" ∧
    (("12345678901" : String) == "") = false := by
  decide

/-- C1, amended: whenever the text classifies as passport *and* the MRZ
decoder succeeds, the assembled record has an empty `visaNumber`; when MRZ
decoding fails the pipeline runs the visa branch instead, so the guarantee
is limited to the MRZ-successful passport path. -/
theorem extractVisaData_passport_mrz_visaNumber_empty
    (text photo : String) (m : MRZData)
    (hdoc : detectDocumentType text = DocType.passport)
    (hmrz : parseMRZ text = some m) :
    (extractVisaDataCore text photo).visaNumber = "" := by
  simp only [extractVisaDataCore, hdoc, hmrz, if_pos]

/-- C1, witness: a passport text whose MRZ decodes, taken through the
pipeline core. -/
theorem extractVisaData_passport_mrz_visaNumber_empty_witness :
    (extractVisaDataCore
      "P<MARDOE<<JOHN<<<<<<<<<<<<<<<<<<<<<<<<<<<<<\nAB1234567MAR8501019M30010170000000000000000"
      "").visaNumber = "" :=
  extractVisaData_passport_mrz_visaNumber_empty _ ""
    ⟨"AB1234567", "19/10/2050", "17/10/200", "AR8", "3", "DOE", "JOHN"⟩
    (by decide) (by decide)

/-! ## Claim C2 — decoding the synthetic MRZ block -/

/-- C2, counterexample: on the spec's synthetic block the decoder does not
produce the claimed birth date `01/01/1985`; the synthetic line 2 lacks the
document-number check digit the fixed offsets expect, so offset 13 lands
inside the date field. -/
theorem parseMRZ_sample_dob_cex :
    (parseMRZ "P<MARDOE<<JOHN<<<<<<<<<<<<<<<<<<<<<<<<<<<<<\nAB1234567MAR8501019M30010170000000000000000").map
      MRZData.dateOfBirth = some "19/10/2050" ∧
    ((some ("19/10/2050" : String)) == some ("01/01/1985" : String)) = false := by
  decide

/-- C2, amended: the synthetic block decodes to lastName `DOE`, firstName
`JOHN` and passportNumber `AB1234567` with the `<` fill stripped, as
claimed; but because the block omits the check digit at offset 9, the birth
date is read from `501019` as `19/10/2050`, and the expiry from `001017` as
`17/10/200` (the interpolated year number drops its leading zeros). -/
theorem parseMRZ_sample_decoding :
    parseMRZ "P<MARDOE<<JOHN<<<<<<<<<<<<<<<<<<<<<<<<<<<<<\nAB1234567MAR8501019M30010170000000000000000" =
      some ⟨"AB1234567", "19/10/2050", "17/10/200", "AR8", "3", "DOE", "JOHN"⟩ := by
  decide

/-! ## Claim C3 — the MRZ date century boundary -/

/-- C3, counterexample: a two-digit year of exactly 50 converts to 2050, not
to the 1950 the claim asserts, because the source tests `yy > 50`. -/
theorem convertDate_yy50_cex :
    convertDate "500101" = "01/01/2050" ∧
    (("01/01/2050" : String) == "01/01/1950") = false := by
  decide

/-- C3, amended: for a six-digit `YYMMDD` input the century prefix is `19`
exactly when the two-digit year exceeds 50, so 49 maps to 2049, 51 maps to
1951, and the boundary value 50 itself maps to 2050 (not 1950). -/
theorem convertDate_century_boundary :
    (∀ s : String, s.length = 6 → s.data.all isAsciiDigit = true →
      (((convertDate s).data.drop 6).take 2 = ['1', '9'] ↔
        digitsToNat (s.data.take 2) > 50)) ∧
    convertDate "490101" = "01/01/2049" ∧
    convertDate "500101" = "01/01/2050" ∧
    convertDate "510101" = "01/01/1951" := by
  constructor
  · intro s hlen hdigits
    have hlen2 : s.data.length = 6 := hlen
    obtain ⟨a, b, l4, hab⟩ : ∃ a b l4, s.data = a :: b :: l4 := by
      cases hd : s.data with
      | nil => rw [hd] at hlen2; simp at hlen2
      | cons a t =>
        cases ht : t with
        | nil => rw [hd, ht] at hlen2; simp at hlen2
        | cons b t2 => exact ⟨a, b, t2, by simp [hd, ht]⟩
    have hdig : ∀ c ∈ s.data, isAsciiDigit c = true := List.all_eq_true.mp hdigits
    have hya : isAsciiDigit a = true := hdig a (by rw [hab]; simp)
    have hyb : isAsciiDigit b = true := hdig b (by rw [hab]; simp)
    have hbx : (b = 'x') = False := by
      simp only [eq_iff_iff, iff_false]
      intro hb
      rw [hb] at hyb
      simp [isAsciiDigit] at hyb
    have hbX : (b = 'X') = False := by
      simp only [eq_iff_iff, iff_false]
      intro hb
      rw [hb] at hyb
      simp [isAsciiDigit] at hyb
    have hnm : (a = '-') = False := by
      simp only [eq_iff_iff, iff_false]
      intro h
      rw [h] at hya
      exact absurd hya (by decide)
    have hnp : (a = '+') = False := by
      simp only [eq_iff_iff, iff_false]
      intro h
      rw [h] at hya
      exact absurd hya (by decide)
    have hparse : jsParseInt (s.data.take 2) =
        some ((digitsToNat (s.data.take 2) : Int)) := by
      rw [hab]
      show jsParseInt [a, b] = some ((digitsToNat [a, b] : Int))
      unfold jsParseInt
      have hne : ([a, b] = ['0', 'x'] || [a, b] = ['0', 'X']) = false := by
        simp [hbx, hbX]
      rw [hne]
      have htw : List.takeWhile isAsciiDigit [a, b] = [a, b] := by
        simp [List.takeWhile_cons, hya, hyb]
      simp only [Bool.false_eq_true, if_false, List.headD_cons, hnm, hnp,
        or_self, if_false, ite_false, htw]
      simp [hya, htw]
    have hres : (convertDate s).data =
        substringJS s.data 4 6 ++ '/' :: substringJS s.data 2 4 ++ '/' ::
          (if ((digitsToNat (s.data.take 2) : Int) > 50) then
            '1' :: '9' :: (toString ((digitsToNat (s.data.take 2) : Int))).data
           else
            '2' :: '0' :: (toString ((digitsToNat (s.data.take 2) : Int))).data) := by
      show (convertDateL s.data) = _
      unfold convertDateL
      rw [if_neg (by simp [hlen2]), hparse]
    obtain ⟨c, d, hcd⟩ := List.length_eq_two.mp
      (show (substringJS s.data 2 4).length = 2 by
        unfold substringJS
        rw [List.length_take, List.length_drop, hlen2]
        rfl)
    obtain ⟨e, f, hef⟩ := List.length_eq_two.mp
      (show (substringJS s.data 4 6).length = 2 by
        unfold substringJS
        rw [List.length_take, List.length_drop, hlen2]
        rfl)
    rw [hres, hcd, hef]
    by_cases h50 : ((digitsToNat (s.data.take 2) : Int) > 50)
    · rw [if_pos h50]
      exact iff_of_true rfl (by exact_mod_cast h50)
    · rw [if_neg h50]
      refine iff_of_false ?_ fun hn => h50 (by exact_mod_cast hn)
      intro hcontra
      have : (['2', '0'] : List Char) = ['1', '9'] := hcontra
      simp at this
  · exact ⟨by decide, by decide, by decide⟩

/-- C3, witness: the general boundary statement applied at `490101`. -/
theorem convertDate_century_boundary_witness :
    ((convertDate "490101").data.drop 6).take 2 = ['1', '9'] ↔
      digitsToNat ("490101".data.take 2) > 50 :=
  convertDate_century_boundary.1 "490101" (by decide) (by decide)

/-! ## Claim C4 — the Strategy-2 name override -/

/-- C4, counterexample: on the five-character text `اب جد` Strategy 1 comes
back empty and the line scan would accept `اب جد` itself, yet the fallback
does not run — the source guards it with `text.length > 10`, which the claim
omits — so the extracted name stays empty instead of being overridden. -/
theorem extractName_fallback_guard_cex :
    strategy1Name "اب جد" = "" ∧
    scanFirstAccepted "اب جد" = some "اب جد" ∧
    extractName "اب جد" = "" ∧
    (("" : String) == "اب جد") = false := by
  decide

/-- C4, amended: whenever Strategy 1's result is empty, shorter than 3
characters, or without Arabic characters, *and the text is longer than 10
characters*, the first candidate accepted by the heuristic line scan
overrides the Strategy 1 result. -/
theorem extractName_strategy2_override (text c : String)
    (hfail : strategy1Name text = "" ∨ (strategy1Name text).length < 3 ∨
      hasArabicStr (strategy1Name text) = false)
    (hlen : 10 < text.length)
    (hscan : scanFirstAccepted text = some c) :
    extractName text = c := by
  unfold extractName
  rw [if_pos ⟨hfail, hlen⟩, hscan]
  rfl

/-- C4, witness: a 16-character text whose first line has no Arabic and whose
second line is the accepted candidate. -/
theorem extractName_strategy2_override_witness :
    extractName "XXXXXXXXXX\nاب جد" = "اب جد" :=
  extractName_strategy2_override "XXXXXXXXXX\nاب جد" "اب جد"
    (by decide) (by decide) (by decide)

/-! ## Claim C6 — extractor-stage totality and the empty input -/

/-- C6: the extractor-stage functions are total Lean functions (no exception
path exists in the embedding), and on the empty recognized text every
extracted field of the assembled record is the empty string. -/
theorem extractors_empty_on_empty_text :
    extractName "" = "" ∧
    extractPassportNumber "" = "" ∧
    extractVisaNumber "" = "" ∧
    extractBirthDate "" = "" ∧
    generateEmail "" "" = "" ∧
    extractVisaDataCore "" "" =
      { fullName := "", email := "", passportNumber := "", visaNumber := "",
        birthDate := "", clientPhoto := "" } := by
  decide

/-! ## Claim C7 — the document classifier decision list -/

/-- C7: the classifier is total by construction and agrees everywhere with
the specification's four-step decision list: MRZ shape → passport, else
passport keyword → passport, else visa keyword → visa, else visa. -/
theorem detectDocumentType_eq_spec :
    ∀ text : String, detectDocumentType text = detectDocumentTypeSpec text := by
  intro t
  unfold detectDocumentType detectDocumentTypeSpec
  by_cases h1 : (hasMRZ1 t.data || hasMRZ2 t.data) = true
  · rw [h1]
    simp
  · have h1f : (hasMRZ1 t.data || hasMRZ2 t.data) = false :=
      Bool.eq_false_iff.mpr h1
    rw [h1f]
    by_cases h2 : hasPassportKeywords t.data = true
    · simp [h2]
    · have h2f : hasPassportKeywords t.data = false := Bool.eq_false_iff.mpr h2
      simp only [h2f]
      by_cases h3 : hasVisaKeywords t.data = true
      · simp [h3]
      · have h3f : hasVisaKeywords t.data = false := Bool.eq_false_iff.mpr h3
        simp [h3f]

/-! ## Claim C9 — the name rejection guard -/

theorem trimL_cleanStages (l : List Char) :
    trimL (cleanStages l) = cleanStages l := by
  simp only [cleanStages]
  exact trimL_trimL _

theorem cleanCandidateL_ok (l : List Char) :
    cleanCandidateL l = [] ∨
    (isRejectWord (cleanCandidateL l) = false ∧ 3 ≤ (cleanCandidateL l).length) := by
  unfold cleanCandidateL
  by_cases hg : (isRejectWord (cleanStages l) || decide ((cleanStages l).length < 3)) = true
  · left
    simp only [hg, if_true]
  · right
    rw [Bool.or_eq_true] at hg
    push_neg at hg
    obtain ⟨hr, hl⟩ := hg
    have hr2 : isRejectWord (cleanStages l) = false := Bool.eq_false_iff.mpr hr
    have hl2 : ¬((cleanStages l).length < 3) := by
      intro h
      exact hl (by simpa using h)
    rw [if_neg (by simp [hr2, hl2]), trimL_cleanStages]
    exact ⟨hr2, by omega⟩

theorem stringData_mk (l : List Char) : (String.mk l).data = l := rfl

theorem stringLength_mk (l : List Char) : (String.mk l).length = l.length := rfl

theorem cleanCandidate_eq (s : String) :
    cleanCandidate s = ⟨cleanCandidateL s.data⟩ := rfl

theorem strategy1Name_eq (t : String) :
    strategy1Name t = ⟨cleanCandidateL (rawNameOf t.data)⟩ := rfl

theorem scanFirstAccepted_shape {t : String} {c : String}
    (h : scanFirstAccepted t = some c) :
    ∃ u : List Char, c = (⟨cleanCandidateL u⟩ : String) := by
  obtain ⟨line, _, hline⟩ := findSome?_mem h
  refine ⟨trimL line, ?_⟩
  split_ifs at hline
  exact (Option.some.inj hline).symm

theorem extractName_shape (t : String) :
    ∃ u : List Char, extractName t = (⟨cleanCandidateL u⟩ : String) := by
  unfold extractName
  by_cases hc : ((strategy1Name t = "" ∨ (strategy1Name t).length < 3 ∨
      hasArabicStr (strategy1Name t) = false) ∧ 10 < t.length)
  · rw [if_pos hc]
    cases hs : scanFirstAccepted t with
    | none => exact ⟨rawNameOf t.data, strategy1Name_eq t⟩
    | some c =>
      obtain ⟨u, hu⟩ := scanFirstAccepted_shape hs
      exact ⟨u, hu⟩
  · rw [if_neg hc]
    exact ⟨rawNameOf t.data, strategy1Name_eq t⟩

/-- C9: after cleanup no candidate survives as one of the rejected words
`Al`, `He`, `The`, `Of`, `In`, `By` (in any letter case), and any candidate
under 3 characters is rejected to the empty string; the property carries to
`extractName`, whose result is always a cleaned candidate, and holds
concretely on each rejected word. -/
theorem cleanCandidate_reject_set :
    (∀ s : String, isRejectWord (cleanCandidate s).data = false ∧
      (cleanCandidate s = "" ∨ 3 ≤ (cleanCandidate s).length)) ∧
    (∀ t : String, isRejectWord (extractName t).data = false ∧
      (extractName t = "" ∨ 3 ≤ (extractName t).length)) ∧
    cleanCandidate "Al" = "" ∧ cleanCandidate "aL" = "" ∧
    cleanCandidate "He" = "" ∧ cleanCandidate "he" = "" ∧
    cleanCandidate "The" = "" ∧ cleanCandidate "THE" = "" ∧
    cleanCandidate "Of" = "" ∧ cleanCandidate "of" = "" ∧
    cleanCandidate "In" = "" ∧ cleanCandidate "iN" = "" ∧
    cleanCandidate "By" = "" ∧ cleanCandidate "by" = "" := by
  refine ⟨?_, ?_, by decide, by decide, by decide, by decide, by decide,
    by decide, by decide, by decide, by decide, by decide, by decide, by decide⟩
  · intro s
    rw [cleanCandidate_eq s, stringData_mk, stringLength_mk]
    rcases cleanCandidateL_ok s.data with h | ⟨h1, h2⟩
    · rw [h]
      exact ⟨by decide, Or.inl rfl⟩
    · exact ⟨h1, Or.inr h2⟩
  · intro t
    obtain ⟨u, hu⟩ := extractName_shape t
    rw [hu, stringData_mk, stringLength_mk]
    rcases cleanCandidateL_ok u with h | ⟨h1, h2⟩
    · rw [h]
      exact ⟨by decide, Or.inl rfl⟩
    · exact ⟨h1, Or.inr h2⟩

/-! ## Claim C10 — short MRZ second lines -/

theorem convertDateL_of_ne_six {l : List Char} (h : l.length ≠ 6) :
    convertDateL l = [] := by
  unfold convertDateL
  rw [if_pos h]

/-- C10: the date converter returns the empty string for any input whose
length is not exactly 6; consequently, whenever `parseMRZ` accepts a pair of
lines whose second line is shorter than the offsets require (19 characters
for the birth-date field, 27 for the expiry field), it still returns a
record, with the affected date field empty. -/
theorem parseMRZ_short_line2_dates_empty :
    (∀ s : String, s.length ≠ 6 → convertDate s = "") ∧
    (∀ (text : String) (m : MRZData), parseMRZ text = some m →
      ((mrzLinesOfText text).2.length < 19 → m.dateOfBirth = "") ∧
      ((mrzLinesOfText text).2.length < 27 → m.expiryDate = "")) := by
  constructor
  · intro s h
    show (⟨convertDateL s.data⟩ : String) = ""
    rw [convertDateL_of_ne_six h]
  · intro text m h
    simp only [parseMRZ] at h
    by_cases he : ((mrzLinesOfText text).1.isEmpty ||
        (mrzLinesOfText text).2.isEmpty) = true
    · exfalso
      rw [if_pos he] at h
      exact Option.noConfusion h
    · rw [if_neg he] at h
      have hm := Option.some.inj h
      constructor
      · intro hlen
        have hne : (substringJS (mrzLinesOfText text).2 13 19).length ≠ 6 := by
          unfold substringJS
          rw [List.length_take, List.length_drop]
          omega
        rw [← hm]
        show (⟨convertDateL (substringJS (mrzLinesOfText text).2 13 19)⟩ : String) = ""
        rw [convertDateL_of_ne_six hne]
      · intro hlen
        have hne : (substringJS (mrzLinesOfText text).2 21 27).length ≠ 6 := by
          unfold substringJS
          rw [List.length_take, List.length_drop]
          omega
        rw [← hm]
        show (⟨convertDateL (substringJS (mrzLinesOfText text).2 21 27)⟩ : String) = ""
        rw [convertDateL_of_ne_six hne]

/-- C10, witness: a found MRZ pair whose second line is only 9 characters
long decodes to a record with empty birth and expiry dates (and the
convert-date fact applied to a 7-character input). -/
theorem parseMRZ_short_line2_dates_empty_witness :
    convertDate "1234567" = "" ∧
    parseMRZ "P<MARDOE<<JOHN<<<<<<<<<<<<<<<<<<<<<<<<<<<<<\nAB1234567" =
      some ⟨"AB1234567", "", "", "", "", "DOE", "JOHN"⟩ ∧
    (⟨"AB1234567", "", "", "", "", "DOE", "JOHN"⟩ : MRZData).dateOfBirth = "" ∧
    (⟨"AB1234567", "", "", "", "", "DOE", "JOHN"⟩ : MRZData).expiryDate = "" := by
  refine ⟨parseMRZ_short_line2_dates_empty.1 "1234567" (by decide), by decide, ?_, ?_⟩
  · exact (parseMRZ_short_line2_dates_empty.2
      "P<MARDOE<<JOHN<<<<<<<<<<<<<<<<<<<<<<<<<<<<<\nAB1234567"
      ⟨"AB1234567", "", "", "", "", "DOE", "JOHN"⟩ (by decide)).1 (by decide)
  · exact (parseMRZ_short_line2_dates_empty.2
      "P<MARDOE<<JOHN<<<<<<<<<<<<<<<<<<<<<<<<<<<<<\nAB1234567"
      ⟨"AB1234567", "", "", "", "", "DOE", "JOHN"⟩ (by decide)).2 (by decide)

/-! ## Claim C5 — the shape of synthesized email addresses -/

theorem toNat_ofNat_small {n : Nat} (h : n < 55296) :
    (Char.ofNat n).toNat = n := by
  unfold Char.ofNat
  rw [dif_pos (Or.inl h)]
  rfl

theorem lowerChar_lower {c : Char} (h : isAsciiLetter c = true) :
    isAsciiLower (lowerChar c) = true := by
  unfold isAsciiLetter isAsciiUpper isAsciiLower at *
  unfold lowerChar isAsciiUpper
  simp only [Bool.or_eq_true, Bool.and_eq_true, decide_eq_true_eq] at h
  rcases h with ⟨h1, h2⟩ | ⟨h1, h2⟩
  · rw [if_pos (by simp; omega)]
    have ht : (Char.ofNat (c.toNat + 32)).toNat = c.toNat + 32 :=
      toNat_ofNat_small (by omega)
    simp [ht]
    omega
  · by_cases hu : (65 ≤ c.toNat ∧ c.toNat ≤ 90)
    · omega
    · rw [if_neg (by simpa using hu)]
      simp
      omega

theorem lowerChar_digit {c : Char} (h : isAsciiDigit c = true) :
    isAsciiDigit (lowerChar c) = true := by
  unfold isAsciiDigit at *
  unfold lowerChar isAsciiUpper
  simp only [Bool.and_eq_true, decide_eq_true_eq] at h
  rw [if_neg (by simp; omega)]
  simp
  omega

theorem lowerChar_alnum {c : Char}
    (h : isAsciiLetter c = true ∨ isAsciiDigit c = true) :
    isLowerAlnum (lowerChar c) = true := by
  unfold isLowerAlnum
  rcases h with h | h
  · simp [lowerChar_lower h]
  · simp [lowerChar_digit h]

theorem translit_chars {s : String} {c : Char}
    (h : c ∈ (transliterateArabic s).data) :
    isAsciiLetter c = true ∨ isAsciiDigit c = true ∨ jsSpace c = true := by
  have h2 : c ∈ (s.data.map translitChar).flatten := h
  obtain ⟨l, hl, hc⟩ := List.mem_flatten.mp h2
  obtain ⟨d, _, hd⟩ := List.mem_map.mp hl
  rw [← hd] at hc
  unfold translitChar at hc
  cases hf : arabicToLatinMap.find? (fun e => e.1 = String.mk [d]) with
  | some e =>
    rw [hf] at hc
    have he : e ∈ arabicToLatinMap := List.mem_of_find?_eq_some hf
    have hall : arabicToLatinMap.all (fun e => e.2.data.all isAsciiLower) = true := by
      decide
    have := List.all_eq_true.mp (List.all_eq_true.mp hall e he) c hc
    left
    unfold isAsciiLetter
    simp [this]
  | none =>
    rw [hf] at hc
    by_cases hcl : (isAsciiDigit d || jsSpace d || isAsciiLetter d) = true
    · rw [if_pos hcl] at hc
      have : c = d := List.mem_singleton.mp hc
      subst this
      rcases Bool.or_eq_true _ _ |>.mp hcl with h3 | h3
      · rcases Bool.or_eq_true _ _ |>.mp h3 with h4 | h4
        · exact Or.inr (Or.inl h4)
        · exact Or.inr (Or.inr h4)
      · exact Or.inl h3
    · rw [if_neg hcl] at hc
      exact absurd hc (List.not_mem_nil c)

theorem splitWsJS_parts {l g : List Char} (hg : g ∈ splitWsJS l) :
    ∀ c ∈ g, jsSpace c = false ∧ c ∈ l := by
  intro c hc
  unfold splitWsJS at hg
  by_cases he : (trimL l).isEmpty = true
  · rw [if_pos he] at hg
    have : g = [] := List.mem_singleton.mp hg
    subst this
    exact absurd hc (List.not_mem_nil c)
  · rw [if_neg he] at hg
    obtain ⟨hruns, hpred⟩ := List.mem_filter.mp hg
    have hcl : c ∈ trimL l := mem_of_mem_runs hruns hc
    refine ⟨?_, mem_trimL hcl⟩
    cases g with
    | nil => exact absurd hc (List.not_mem_nil c)
    | cons c0 rest =>
      have hc0 : jsSpace c0 = false := by
        simpa using hpred
      have := runs_agree jsSpace (trimL l) _ hruns c hc c0 (List.mem_cons_self c0 rest)
      rw [this, hc0]

theorem engPairAt_shape {l f s a : List Char}
    (h : engPairAt l = some (f, s, a)) :
    f.all isAsciiLetter = true ∧ s.all isAsciiLetter = true := by
  cases l with
  | nil => exact absurd h (by simp [engPairAt])
  | cons c rest =>
    simp only [engPairAt] at h
    split_ifs at h with h1 h2 h3
    split at h
    next d rest2 heq =>
      split_ifs at h with h4 h5
      have hinj := Option.some.inj h
      have hf : f = c :: rest.takeWhile isAsciiLower := by
        have := congrArg Prod.fst hinj
        exact this.symm
      have hs : s = d :: rest2.takeWhile isAsciiLower := by
        have := congrArg (fun p => p.2.1) hinj
        exact this.symm
      constructor
      · rw [hf]
        rw [List.all_cons]
        refine Bool.and_eq_true _ _ |>.mpr ⟨by unfold isAsciiLetter; simp [h1], ?_⟩
        rw [List.all_eq_true]
        intro x hx
        unfold isAsciiLetter
        simp [List.mem_takeWhile_imp hx]
      · rw [hs]
        rw [List.all_cons]
        refine Bool.and_eq_true _ _ |>.mpr ⟨by unfold isAsciiLetter; simp [h4], ?_⟩
        rw [List.all_eq_true]
        intro x hx
        unfold isAsciiLetter
        simp [List.mem_takeWhile_imp hx]
    next heq => exact absurd h (by simp)

theorem engPairScanAux_shape :
    ∀ (fuel : Nat) (l f s : List Char),
      engPairScanAux fuel l = some (f, s) →
      ∃ l0 a, engPairAt l0 = some (f, s, a) := by
  intro fuel
  induction fuel with
  | zero => intro l f s h; exact absurd h (by simp [engPairScanAux])
  | succ n ih =>
    intro l f s h
    cases l with
    | nil => exact absurd h (by simp [engPairScanAux])
    | cons c rest =>
      simp only [engPairScanAux] at h
      cases hm : engPairAt (c :: rest) with
      | some v =>
        obtain ⟨f0, s0, after⟩ := v
        simp only [hm] at h
        by_cases hr : engRejectFirst f0 = true
        · rw [if_pos hr] at h
          exact ih after f s h
        · rw [if_neg hr] at h
          have hinj := Option.some.inj h
          have hf : f0 = f := congrArg Prod.fst hinj
          have hs : s0 = s := congrArg Prod.snd hinj
          exact ⟨c :: rest, after, by rw [hm, hf, hs]⟩
      | none =>
        simp only [hm] at h
        exact ih rest f s h

theorem all_lowerL_of_alnum {l : List Char}
    (h : ∀ c ∈ l, isAsciiLetter c = true ∨ isAsciiDigit c = true) :
    (lowerL l).all isLowerAlnum = true := by
  rw [List.all_eq_true]
  intro x hx
  obtain ⟨c, hc, hlc⟩ := List.mem_map.mp hx
  rw [← hlc]
  exact lowerChar_alnum (h c hc)

/-- C5, counterexample: a digit can survive transliteration into the email
local part, so the non-empty result is not always `<lowercase letters
only>@comfythings.com` as claimed. -/
theorem generateEmail_digit_in_local_cex :
    generateEmail "" "م3" = "m3@comfythings.com" ∧
    ("m3".data.all isAsciiLower) = false := by
  decide

/-- C5, amended: every non-empty visa-path email is
`<local>@comfythings.com` with the local part made of lowercase ASCII
letters *and digits* (digits do occur — see the counterexample); every
non-empty passport-path email built from MRZ name fields consisting of
ASCII letters has a local part of lowercase ASCII letters only. -/
theorem email_local_shape :
    (∀ text name : String, generateEmail text name = "" ∨
      ∃ p : List Char, (generateEmail text name).data = p ++ emailDomain ∧
        p.all isLowerAlnum = true) ∧
    (∀ (m : MRZData) (d : String), m.lastName ≠ "" → m.firstName ≠ "" →
      m.lastName.data.all isAsciiLetter = true →
      m.firstName.data.all isAsciiLetter = true →
      ∃ p : List Char, (generateEmailFromPassport m d).data = p ++ emailDomain ∧
        p.all isAsciiLower = true) := by
  constructor
  · intro text name
    unfold generateEmail
    by_cases hn : (name ≠ "" ∧ hasArabicStr name = true)
    · rw [if_pos hn]
      have hparts : ∀ g ∈ splitWsJS (transliterateArabic name).data, ∀ c ∈ g,
          isAsciiLetter c = true ∨ isAsciiDigit c = true := by
        intro g hg c hc
        obtain ⟨hns, hmem⟩ := splitWsJS_parts hg c hc
        rcases translit_chars hmem with h | h | h
        · exact Or.inl h
        · exact Or.inr h
        · rw [h] at hns; exact absurd hns (by simp)
      by_cases h2 : (splitWsJS (transliterateArabic name).data).length ≥ 2
      · rw [if_pos h2]
        right
        refine ⟨_, stringData_mk _, ?_⟩
        cases hp : splitWsJS (transliterateArabic name).data with
        | nil => rw [hp] at h2; simp at h2
        | cons p0 t =>
          cases ht : t with
          | nil => rw [hp, ht] at h2; simp at h2
          | cons p1 r =>
            show (visaEmailLocal p0 p1).all isLowerAlnum = true
            unfold visaEmailLocal
            rw [List.all_append]
            refine Bool.and_eq_true _ _ |>.mpr ⟨?_, ?_⟩
            · exact all_lowerL_of_alnum fun c hc =>
                hparts p0 (by rw [hp]; exact List.mem_cons_self _ _) c hc
            · rw [List.all_eq_true]
              intro x hx
              have hx2 : x ∈ lowerL p1 := (List.take_sublist _ _).subset hx
              obtain ⟨c, hc, hlc⟩ := List.mem_map.mp hx2
              rw [← hlc]
              exact lowerChar_alnum
                (hparts p1 (by rw [hp, ht]; simp) c hc)
      · rw [if_neg h2]
        right
        refine ⟨_, stringData_mk _, ?_⟩
        cases hp : splitWsJS (transliterateArabic name).data with
        | nil =>
          show (lowerL (([] : List (List Char)).headD [])).all isLowerAlnum = true
          decide
        | cons p0 t =>
          show (lowerL p0).all isLowerAlnum = true
          exact all_lowerL_of_alnum fun c hc =>
            hparts p0 (by rw [hp]; exact List.mem_cons_self _ _) c hc
    · rw [if_neg hn]
      cases hm : engPairScan text.data with
      | none => exact Or.inl rfl
      | some v =>
        obtain ⟨f, s⟩ := v
        right
        refine ⟨_, stringData_mk _, ?_⟩
        obtain ⟨l0, a, hat⟩ := engPairScanAux_shape _ _ f s hm
        obtain ⟨hfall, hsall⟩ := engPairAt_shape hat
        refine all_lowerL_of_alnum fun c hc => ?_
        rcases List.mem_append.mp hc with h | h
        · exact Or.inl (List.all_eq_true.mp hfall c h)
        · exact Or.inl (List.all_eq_true.mp hsall c ((List.take_sublist _ _).subset h))
  · intro m d h1 h2 h3 h4
    unfold generateEmailFromPassport
    rw [if_pos ⟨h1, h2⟩]
    refine ⟨_, stringData_mk _, ?_⟩
    show (mrzEmailLocal m.lastName.data m.firstName.data).all isAsciiLower = true
    unfold mrzEmailLocal
    rw [List.all_append]
    refine Bool.and_eq_true _ _ |>.mpr ⟨?_, ?_⟩
    · rw [List.all_eq_true]
      intro x hx
      have hx2 : x ∈ lowerL m.lastName.data := (List.filter_sublist _).subset hx
      obtain ⟨c, hc, hlc⟩ := List.mem_map.mp hx2
      rw [← hlc]
      exact lowerChar_lower (List.all_eq_true.mp h3 c hc)
    · rw [List.all_eq_true]
      intro x hx
      have hx1 : x ∈ despace (lowerL m.firstName.data) :=
        (List.take_sublist _ _).subset hx
      have hx2 : x ∈ lowerL m.firstName.data := (List.filter_sublist _).subset hx1
      obtain ⟨c, hc, hlc⟩ := List.mem_map.mp hx2
      rw [← hlc]
      exact lowerChar_lower (List.all_eq_true.mp h4 c hc)

/-- C5, witness: both parts applied — the visa-path statement at the input
of the counterexample (whose local part indeed contains a digit), and the
passport-path statement at an all-letter MRZ record. -/
theorem email_local_shape_witness :
    (generateEmail "" "م3" = "" ∨
      ∃ p : List Char, (generateEmail "" "م3").data = p ++ emailDomain ∧
        p.all isLowerAlnum = true) ∧
    (∃ p : List Char,
      (generateEmailFromPassport ⟨"", "", "", "", "", "DOE", "JOHN"⟩ "").data =
        p ++ emailDomain ∧ p.all isAsciiLower = true) :=
  ⟨email_local_shape.1 "" "م3",
   email_local_shape.2 ⟨"", "", "", "", "", "DOE", "JOHN"⟩ ""
     (by decide) (by decide) (by decide) (by decide)⟩

/-! ## Claim C8 — the asymmetry of the two email prefix orders -/

/-- C8, counterexample: for the logical name parts `aa` (first) and `aaa`
(last) the two token prefixes differ (`aa` against `aaa`), yet the visa path
(`aa` + first 3 of `aaa`) and the passport path (`aaa` + first 3 of `aa`)
produce the *same* address, so the claimed divergence does not hold whenever
the token prefixes differ.  `عع ععع` transliterates to `aa aaa`. -/
theorem email_asymmetry_cex :
    generateEmail "" "عع ععع" = "aaaaa@comfythings.com" ∧
    generateEmailFromPassport ⟨"", "", "", "", "", "AAA", "AA"⟩ "" =
      "aaaaa@comfythings.com" ∧
    (visaEmailLocal "aa".data "aaa".data ==
      mrzEmailLocal "aaa".data "aa".data) = true ∧
    ((lowerL "aa".data).take 3 == (lowerL "aaa".data).take 3) = false := by
  decide

/-- C8, amended: the two prefix orders do differ — under the stronger
premise that both tokens are at least 3 characters long (and, as actual
split tokens, whitespace-free after lowercasing) and have different 3-letter
prefixes; the passport-path email is exactly the `mrzEmailLocal` order. -/
theorem email_asymmetry_amended :
    (∀ a b : List Char,
      (lowerL a).all (fun c => !jsSpace c) = true →
      (lowerL b).all (fun c => !jsSpace c) = true →
      3 ≤ a.length → 3 ≤ b.length →
      (lowerL a).take 3 ≠ (lowerL b).take 3 →
      visaEmailLocal a b ≠ mrzEmailLocal b a) ∧
    (∀ (m : MRZData) (d : String), m.lastName ≠ "" → m.firstName ≠ "" →
      generateEmailFromPassport m d =
        ⟨mrzEmailLocal m.lastName.data m.firstName.data ++ emailDomain⟩) := by
  constructor
  · intro a b hna hnb h3a h3b hne heq
    unfold visaEmailLocal mrzEmailLocal at heq
    rw [show despace (lowerL b) = lowerL b from
          List.filter_eq_self.mpr (List.all_eq_true.mp hnb),
        show despace (lowerL a) = lowerL a from
          List.filter_eq_self.mpr (List.all_eq_true.mp hna)] at heq
    have hla : (lowerL a).length = a.length := List.length_map a lowerChar
    have hlb : (lowerL b).length = b.length := List.length_map b lowerChar
    have hlen : a.length = b.length := by
      have := congrArg List.length heq
      rw [List.length_append, List.length_append, List.length_take,
        List.length_take, hla, hlb] at this
      omega
    have := List.append_inj heq (by rw [hla, hlb]; exact hlen)
    exact hne (by rw [this.1])
  · intro m d h1 h2
    unfold generateEmailFromPassport
    rw [if_pos ⟨h1, h2⟩]

/-- C8, witness: the amended divergence at the tokens `john` and `doe`, and
the passport-path prefix equation at the `DOE`/`JOHN` MRZ record. -/
theorem email_asymmetry_amended_witness :
    (visaEmailLocal "john".data "doe".data ==
      mrzEmailLocal "doe".data "john".data) = false ∧
    generateEmailFromPassport ⟨"", "", "", "", "", "DOE", "JOHN"⟩ "x" =
      ⟨mrzEmailLocal "DOE".data "JOHN".data ++ emailDomain⟩ :=
  ⟨beq_eq_false_iff_ne.mpr
      (email_asymmetry_amended.1 "john".data "doe".data (by decide) (by decide)
        (by decide) (by decide) (by decide)),
   email_asymmetry_amended.2 ⟨"", "", "", "", "", "DOE", "JOHN"⟩ "x"
      (by decide) (by decide)⟩

end YahyaBadge
